import Mathlib

/-
  Verification development for the analyzerado repository.

  The embedded code is `src/services/azure_devops_service.py` (class
  `AzureDevOpsService`): the result cache (`_get_cached_result`), the
  per-item update fetcher (`get_work_item_updates`) and the state-change
  reconciler (`analyze_state_changes`), together with the window
  construction performed by the caller in `src/pages/app.py`
  (`datetime.combine(date, datetime.min.time())` /
  `datetime.combine(date, datetime.max.time())`).

  Modelling conventions:
  * `datetime` instants and naive wall-clock values are microsecond counts
    (`Int`), microseconds since the epoch for instants.  Comparison of two
    UTC-aware datetimes is integer comparison of the counts.
  * A timezone is a function `Int → Int` giving the zone's UTC offset in
    microseconds for a naive wall-clock value (this is what
    `pytz.timezone(...).localize` consults; a DST-free zone is a constant
    function).  `wall - offset` is the UTC instant of a localized wall time.
  * Python dicts of fields are structures with one `Option` field per key
    the code reads; Python `None`, a missing key and a falsy `{}` all
    become `none` (the code treats them alike via `.get` + truthiness).
  * The network is an oracle `fetch : Nat → Except String (List Update)`;
    `Except.error` is the `requests.exceptions.RequestException` branch.
  * Mutation of `self.work_item_updates_cache` is explicit state passing.
-/

namespace Analyzerado

/-- Microseconds in one day. -/
def usPerDay : Int := 86400000000

/-- Cache freshness duration: `self.cache_duration = 3600` seconds in
`AzureDevOpsService.__init__`.  (Cache timestamps are modelled in
seconds, like `time.time()`.) -/
def cache_duration : Int := 3600

/-- The dict returned by `get_work_item_details` (or `none` for the empty
dict `{}` returned on a fetch error).  Each field may hold a Python
`None`. -/
structure WIDetails where
  title : Option String
  work_item_type : Option String
  area_path : Option String
  tags : Option String
  team_project : Option String
deriving DecidableEq, Repr

/-- One field's delta inside an update record: the dict
`{oldValue: ..., newValue: ...}`. -/
structure FieldDelta where
  oldValue : Option String
  newValue : Option String
deriving DecidableEq, Repr

/-- One element of the `updates` list returned for a work item: the fields
`analyze_state_changes` reads, plus `revisedBy.displayName` and the
enrichment key `_work_item_details` attached by `get_work_item_updates`. -/
structure Update where
  stateField : Option FieldDelta
  stateChangeDateField : Option FieldDelta
  titleField : Option FieldDelta
  typeField : Option FieldDelta
  areaPathField : Option FieldDelta
  tagsField : Option FieldDelta
  revisedByDisplayName : Option String
  details : Option WIDetails
deriving DecidableEq, Repr

/-- The detail dict appended to `state_analysis[new_state]['items']`. -/
structure Item where
  id : Nat
  title : Option String
  date : String
  project : Option String
  work_item_type : Option String
  area_path : Option String
  tags : Option String
  old_state : String
  new_state : String
  changed_by : String
deriving DecidableEq, Repr

/-- One value of the `state_analysis` dict. -/
structure StateEntry where
  count : Nat
  items : List Item
deriving DecidableEq, Repr

/-- The `state_analysis` dict, as an association list in key-insertion
order. -/
abbrev Aggregate := List (String × StateEntry)

/-! ## Timestamp parsing

`analyze_state_changes` parses
`state_change_date_str.replace('Z', '').split('.')[0]` with
`datetime.strptime(..., '%Y-%m-%dT%H:%M:%S')` and, on the string-input
branch, window bounds with `'%Y-%m-%d %H:%M:%S'`.  We embed CPython's
`_strptime` for these directives: `%Y` is exactly four digits; `%m`, `%d`,
`%H`, `%M`, `%S` are one or two digits constrained by the regex
alternations `(1[0-2]|0[1-9]|[1-9])`, `(3[01]|[12]\d|0[1-9]|[1-9])`,
`(2[0-3]|[0-1]\d|\d)`, `([0-5]\d|\d)`; the regex is compiled with
`re.IGNORECASE`, so the literal `T` also matches `t`; a whitespace run in
the format becomes `\s+`; the whole string must be consumed; finally the
`datetime` constructor rejects year 0 and a day beyond the month's
length. -/

def digitVal (c : Char) : Nat := c.toNat - 48

/-- Two-digit alternative of `%m`: `1[0-2]|0[1-9]`. -/
def monthTwo (d1 d2 : Nat) : Bool := (d1 == 1 && decide (d2 ≤ 2)) || (d1 == 0 && decide (1 ≤ d2))

/-- One-digit alternative of `%m`: `[1-9]`. -/
def monthOne (d : Nat) : Bool := decide (1 ≤ d)

/-- Two-digit alternative of `%d`: `3[01]|[12]\d|0[1-9]`. -/
def dayTwo (d1 d2 : Nat) : Bool :=
  (d1 == 3 && decide (d2 ≤ 1)) || d1 == 1 || d1 == 2 || (d1 == 0 && decide (1 ≤ d2))

/-- One-digit alternative of `%d`: `[1-9]`. -/
def dayOne (d : Nat) : Bool := decide (1 ≤ d)

/-- Two-digit alternative of `%H`: `2[0-3]|[0-1]\d`. -/
def hourTwo (d1 d2 : Nat) : Bool := (d1 == 2 && decide (d2 ≤ 3)) || decide (d1 ≤ 1)

/-- Two-digit alternative of `%M`/`%S`: `[0-5]\d`. -/
def minSecTwo (d1 _d2 : Nat) : Bool := decide (d1 ≤ 5)

/-- One-digit alternative accepting any digit (`\d`), for `%H`/`%M`/`%S`. -/
def anyDigitOne (_d : Nat) : Bool := true

/-- Parse a one-or-two-digit numeric field.  The two-digit branch is taken
exactly when the regex's two-digit alternations admit the digit pair;
since every literal in the formats is a non-digit, this greedy rule agrees
with the regex engine's backtracking. -/
def parseField2 (two : Nat → Nat → Bool) (one : Nat → Bool) :
    List Char → Option (Nat × List Char)
  | c1 :: c2 :: rest =>
    if c1.isDigit && c2.isDigit && two (digitVal c1) (digitVal c2) then
      some (digitVal c1 * 10 + digitVal c2, rest)
    else if c1.isDigit && one (digitVal c1) then
      some (digitVal c1, c2 :: rest)
    else none
  | [c1] =>
    if c1.isDigit && one (digitVal c1) then some (digitVal c1, []) else none
  | [] => none

/-- Parse `%Y`: exactly four digits. -/
def parseYear4 : List Char → Option (Nat × List Char)
  | c1 :: c2 :: c3 :: c4 :: rest =>
    if c1.isDigit && c2.isDigit && c3.isDigit && c4.isDigit then
      some (((digitVal c1 * 10 + digitVal c2) * 10 + digitVal c3) * 10 + digitVal c4, rest)
    else none
  | _ => none

/-- CPython compiles the strptime format regex with `re.IGNORECASE`, so a
cased format literal matches either case of the input character (`'T'`
matches `'t'`). -/
def litMatches (fmt c : Char) : Bool := fmt == c || fmt.toLower == c.toLower

/-- Parse one literal character of the format, case-insensitively
(`re.IGNORECASE`). -/
def parseLit (ch : Char) : List Char → Option (List Char)
  | c :: rest => if litMatches ch c then some rest else none
  | [] => none

/-- The character set of the regex class `\s` on a CPython `str` pattern:
ASCII whitespace, the C1 separators 0x1C-0x1F, and the Unicode
White_Space characters. -/
def isPySpace (c : Char) : Bool :=
  let n := c.toNat
  (9 ≤ n && n ≤ 13) || n == 32 || (28 ≤ n && n ≤ 31) || n == 133 || n == 160 ||
  n == 5760 || (8192 ≤ n && n ≤ 8202) || n == 8232 || n == 8233 ||
  n == 8239 || n == 8287 || n == 12288

/-- Parse the regex `\s+`: one or more whitespace characters (no digit or
format literal is whitespace, so greedy consumption agrees with the regex
engine). -/
def parseSpaces1 : List Char → Option (List Char)
  | c :: rest => if isPySpace c then some (rest.dropWhile isPySpace) else none
  | [] => none

/-- The date/time separator of the format: CPython `_strptime` replaces a
whitespace run in the format with `\s+` before compiling, so a whitespace
separator matches any nonempty whitespace run; any other separator is a
case-insensitive literal. -/
def parseSep (sep : Char) (cs : List Char) : Option (List Char) :=
  if isPySpace sep then parseSpaces1 cs else parseLit sep cs

/-- A parsed naive datetime (no fractional seconds in either format). -/
structure DateTime6 where
  year : Nat
  month : Nat
  day : Nat
  hour : Nat
  minute : Nat
  second : Nat
deriving DecidableEq, Repr

def isLeapYear (y : Nat) : Bool := y % 4 == 0 && (y % 100 != 0 || y % 400 == 0)

def daysInMonth (y m : Nat) : Nat :=
  if m == 2 then (if isLeapYear y then 29 else 28)
  else if m == 4 || m == 6 || m == 9 || m == 11 then 30
  else 31

/-- `datetime.strptime(s, '%Y-%m-%d' ++ sep ++ '%H:%M:%S')` where `sep` is
`'T'` (transition timestamps) or `' '` (window strings). -/
def strptimeYmdHms (sep : Char) (cs : List Char) : Option DateTime6 := do
  let (y, r1) ← parseYear4 cs
  let r2 ← parseLit '-' r1
  let (mo, r3) ← parseField2 monthTwo monthOne r2
  let r4 ← parseLit '-' r3
  let (d, r5) ← parseField2 dayTwo dayOne r4
  let r6 ← parseSep sep r5
  let (h, r7) ← parseField2 hourTwo anyDigitOne r6
  let r8 ← parseLit ':' r7
  let (mi, r9) ← parseField2 minSecTwo anyDigitOne r8
  let r10 ← parseLit ':' r9
  let (se, r11) ← parseField2 minSecTwo anyDigitOne r10
  if r11 = [] then
    if 1 ≤ y ∧ d ≤ daysInMonth y mo then some ⟨y, mo, d, h, mi, se⟩ else none
  else none

/-- Days from 1970-01-01 of a civil date (standard era-based algorithm);
all intermediate quantities are nonnegative for `y ≥ 1`. -/
def daysFromCivil (y m d : Nat) : Int :=
  let yAdj : Int := if m ≤ 2 then (y : Int) - 1 else (y : Int)
  let era : Int := yAdj / 400
  let yoe : Int := yAdj - era * 400
  let mp : Int := ((m : Int) + 9) % 12
  let doy : Int := (153 * mp + 2) / 5 + (d : Int) - 1
  let doe : Int := yoe * 365 + yoe / 4 - yoe / 100 + doy
  era * 146097 + doe - 719468

/-- Microseconds since the epoch of a naive datetime read as UTC (or a
naive wall-clock microsecond count). -/
def toEpochUs (t : DateTime6) : Int :=
  daysFromCivil t.year t.month t.day * usPerDay
    + ((t.hour * 3600 + t.minute * 60 + t.second : Nat) : Int) * 1000000

/-- `state_change_date_str.replace('Z', '').split('.')[0]`: every `'Z'` is
removed, then the prefix before the first `'.'` is kept. -/
def cleanDateChars (s : String) : List Char :=
  (s.data.filter (fun c => c ≠ 'Z')).takeWhile (fun c => c ≠ '.')

/-- Lines 244-250: clean, `strptime` with `'%Y-%m-%dT%H:%M:%S'`, then
`replace(tzinfo=timezone.utc)` — the naive value is read as a UTC
instant.  `none` is the `except ValueError` branch. -/
def parseStateDate (s : String) : Option Int :=
  (strptimeYmdHms 'T' (cleanDateChars s)).map toEpochUs

/-! ## Window normalization (lines 190-210 and `app.py` lines 42-43) -/

/-- A Python `datetime`: naive (wall-clock microseconds, no `tzinfo`) or
timezone-aware (already denoting a definite UTC instant). -/
inductive PyDateTime where
  | naive (wallUs : Int)
  | aware (utcUs : Int)
deriving DecidableEq, Repr

/-- `analyze_state_changes` accepts a window bound as a `str` or a
`datetime`. -/
inductive DateInput where
  | str (s : String)
  | dt (d : PyDateTime)
deriving DecidableEq, Repr

/-- The uncaught exception of `analyze_state_changes`:
`datetime.strptime` raising `ValueError` on a malformed string bound
(lines 190-193 are outside any try block). -/
inductive AdoError where
  | valueError (msg : String)
deriving DecidableEq, Repr

/-- Lines 190-193: a string bound is parsed with `'%Y-%m-%d %H:%M:%S'`
into a naive datetime; failure raises `ValueError`. -/
def resolveDateInput : DateInput → Except AdoError PyDateTime
  | .str s =>
    match strptimeYmdHms ' ' s.data with
    | some t => .ok (.naive (toEpochUs t))
    | none => .error (.valueError s)
  | .dt d => .ok d

/-- Lines 195-210: a naive bound is localized into the host zone
(`tz.localize`) and converted to UTC — the instant is the wall value
minus the zone's offset at that wall value; an aware bound is converted
(`astimezone`) which preserves its instant. -/
def localizeToUtc (tz : Int → Int) : PyDateTime → Int
  | .naive w => w - tz w
  | .aware u => u

/-- `app.py` line 42: `datetime.combine(start_date, datetime.min.time())`
— local midnight of calendar day `d` (days since epoch), naive. -/
def datetimeMinCombine (d : Int) : Int := d * usPerDay

/-- `app.py` line 43: `datetime.combine(end_date, datetime.max.time())`
— local 23:59:59.999999 of calendar day `d`, naive. -/
def datetimeMaxCombine (d : Int) : Int := d * usPerDay + (usPerDay - 1)

/-! ## Item construction (lines 266-294) -/

/-- Python `a or b` on field values: `None` and the empty string are
falsy. -/
def pyOr (a b : Option String) : Option String :=
  match a with
  | some s => if s = "" then b else some s
  | none => b

/-- `update.get('fields', {}).get(name, {}).get('newValue')`. -/
def deltaNew : Option FieldDelta → Option String
  | some f => f.newValue
  | none => none

/-- `wi_details.get(name, dflt)`: the populated dict always carries the
key (possibly `None`); the error dict `{}` yields the default. -/
def detailsField (d : Option WIDetails) (f : WIDetails → Option String)
    (dflt : Option String) : Option String :=
  match d with
  | some w => f w
  | none => dflt

/-- `_extract_changed_by`: `update.get('revisedBy', {}).get('displayName',
'Unknown')`. -/
def extract_changed_by (u : Update) : String :=
  u.revisedByDisplayName.getD "Unknown"

/-- The dict appended at lines 283-294. -/
def mkItem (wid : Nat) (u : Update) (sc : FieldDelta) (ns ds : String) : Item :=
  { id := wid
    title := pyOr (deltaNew u.titleField) (detailsField u.details (fun w => w.title) (some "N/A"))
    date := ds
    project := detailsField u.details (fun w => w.team_project) (some "N/A")
    work_item_type :=
      pyOr (deltaNew u.typeField) (detailsField u.details (fun w => w.work_item_type) (some "N/A"))
    area_path :=
      pyOr (deltaNew u.areaPathField) (detailsField u.details (fun w => w.area_path) (some "N/A"))
    tags := pyOr (deltaNew u.tagsField) (detailsField u.details (fun w => w.tags) (some ""))
    old_state := sc.oldValue.getD "N/A"
    new_state := ns
    changed_by := extract_changed_by u }

/-! ## The reconciliation loop (lines 212-299) -/

/-- The `processed_items` dedup key `(work_item_id, new_state,
state_change_date_str)` — the raw, uncleaned timestamp string. -/
abbrev DedupKey := Nat × String × String

/-- Loop state: the `state_analysis` dict and the `processed_items` set
(as the list of insertions). -/
structure RecState where
  agg : Aggregate
  processed : List DedupKey
deriving DecidableEq, Repr

/-- Line 212: `{state: {'count': 0, 'items': []} for state in
selected_states}`. -/
def initAgg (sel : List String) : Aggregate :=
  sel.map (fun s => (s, ⟨0, []⟩))

/-- Lines 282-294: `state_analysis[new_state]['count'] += 1` and the
append — update of the (first) entry with the given key. -/
def bumpState (agg : Aggregate) (s : String) (it : Item) : Aggregate :=
  match agg with
  | [] => []
  | (k, e) :: rest =>
    if k = s then (k, ⟨e.count + 1, e.items ++ [it]⟩) :: rest
    else (k, e) :: bumpState rest s it

/-- Lines 222-294: the body of `for update in updates`.  Each `continue`
returns the state unchanged. -/
def processUpdate (sel : List String) (startUtc endUtc : Int) (wid : Nat)
    (st : RecState) (u : Update) : RecState :=
  match u.stateField with
  | none => st
  | some sc =>
    match sc.newValue with
    | none => st
    | some ns =>
      if ns ∈ sel then
        match u.stateChangeDateField with
        | none => st
        | some scd =>
          match scd.newValue with
          | none => st
          | some ds =>
            if ds = "" then st
            else
              match parseStateDate ds with
              | none => st
              | some t =>
                if startUtc ≤ t ∧ t ≤ endUtc then
                  if (wid, ns, ds) ∈ st.processed then st
                  else ⟨bumpState st.agg ns (mkItem wid u sc ns ds), (wid, ns, ds) :: st.processed⟩
                else st
      else st

/-- The inner loop over one item's updates. -/
def processItemUpdates (sel : List String) (su eu : Int) (wid : Nat)
    (st : RecState) (us : List Update) : RecState :=
  us.foldl (processUpdate sel su eu wid) st

/-- The reconciliation core: the loop of lines 212-299 run against a pure
record source `updatesOf` (what `get_work_item_updates` hands back per
id), with already-normalized UTC bounds. -/
def analyze_core (updatesOf : Nat → List Update) (ids : List Nat)
    (sel : List String) (su eu : Int) : Aggregate :=
  (ids.foldl (fun st wid => processItemUpdates sel su eu wid st (updatesOf wid))
    ⟨initAgg sel, []⟩).agg

/-! ## Result cache (`_get_cache_key`, `_get_cached_result`, lines 38-47) -/

/-- One entry of `self.cache`: `{'result': ..., 'timestamp': ...}`. -/
structure CachedVal (α : Type) where
  result : α
  timestamp : Int
deriving DecidableEq, Repr

/-- `_get_cache_key`: operation name and stringified arguments joined by
`':'`. -/
def get_cache_key (funcName : String) (args : List String) : String :=
  funcName ++ ":" ++ String.intercalate ":" args

/-- `_get_cached_result` (lines 41-47): return the stored result only
when the entry exists and `time.time() - cached['timestamp'] <
self.cache_duration`; otherwise `None`. -/
def get_cached_result {α : Type} (cache : List (String × CachedVal α))
    (cacheDuration now : Int) (key : String) : Option α :=
  match List.lookup key cache with
  | some c => if now - c.timestamp < cacheDuration then some c.result else none
  | none => none

/-! ## `get_work_item_updates` (lines 147-182) with its dedicated cache -/

/-- One entry of `self.work_item_updates_cache`. -/
structure UpdCacheEntry where
  updates : List Update
  timestamp : Int
deriving DecidableEq, Repr

/-- `self.work_item_updates_cache`, an assoc list with newest binding
first (dict assignment shadows). -/
abbrev UpdCache := List (Nat × UpdCacheEntry)

/-- Lines 165-170: attach `_work_item_details` to every update. -/
def enrich (det : Option WIDetails) (us : List Update) : List Update :=
  us.map (fun u => { u with details := det })

/-- The `try` body of lines 155-182: fetch, enrich, cache; the `except`
branch returns `[]` and caches nothing. -/
def fetchUpdates (fetch : Nat → Except String (List Update))
    (detailsOf : Nat → Option WIDetails) (now : Int)
    (cache : UpdCache) (wid : Nat) : List Update × UpdCache :=
  match fetch wid with
  | .ok us =>
    let enriched := enrich (detailsOf wid) us
    (enriched, (wid, ⟨enriched, now⟩) :: cache)
  | .error _ => ([], cache)

/-- `get_work_item_updates` (lines 147-182): serve a fresh cache entry,
else fetch. -/
def get_work_item_updates (fetch : Nat → Except String (List Update))
    (detailsOf : Nat → Option WIDetails) (now : Int)
    (cache : UpdCache) (wid : Nat) : List Update × UpdCache :=
  match List.lookup wid cache with
  | some c =>
    if now - c.timestamp < cache_duration then (c.updates, cache)
    else fetchUpdates fetch detailsOf now cache wid
  | none => fetchUpdates fetch detailsOf now cache wid

/-- The updates `get_work_item_updates` yields when the cache does not
interfere: the enriched fetch result, or `[]` on a fetch error. -/
def fetchVal (fetch : Nat → Except String (List Update))
    (detailsOf : Nat → Option WIDetails) (wid : Nat) : List Update :=
  match fetch wid with
  | .ok us => enrich (detailsOf wid) us
  | .error _ => []

/-- One iteration of the outer loop of `analyze_state_changes` (lines
217-296): fetch the item's updates through the cache, fold them into the
state. -/
def analyzeLoop (fetch : Nat → Except String (List Update))
    (detailsOf : Nat → Option WIDetails) (now : Int) (sel : List String)
    (su eu : Int) (p : RecState × UpdCache) (wid : Nat) : RecState × UpdCache :=
  let r := get_work_item_updates fetch detailsOf now p.2 wid
  (processItemUpdates sel su eu wid p.1 r.1, r.2)

/-- The loop of `analyze_state_changes` with the updates cache threaded
explicitly. -/
def analyzeCached (fetch : Nat → Except String (List Update))
    (detailsOf : Nat → Option WIDetails) (now : Int) (cache0 : UpdCache)
    (ids : List Nat) (sel : List String) (su eu : Int) : Aggregate × UpdCache :=
  let r := ids.foldl (analyzeLoop fetch detailsOf now sel su eu) (⟨initAgg sel, []⟩, cache0)
  (r.1.agg, r.2)

/-- `analyze_state_changes` (lines 184-299): resolve string bounds
(may raise `ValueError`), normalize the window to UTC, then run the
reconciliation loop.  Returns the `state_analysis` dict and the final
updates cache. -/
def analyze_state_changes (fetch : Nat → Except String (List Update))
    (detailsOf : Nat → Option WIDetails) (now : Int) (cache0 : UpdCache)
    (tz : Int → Int) (ids : List Nat) (sel : List String)
    (start_date end_date : DateInput) : Except AdoError (Aggregate × UpdCache) :=
  match resolveDateInput start_date with
  | .error e => .error e
  | .ok sd =>
    match resolveDateInput end_date with
    | .error e => .error e
    | .ok ed =>
      .ok (analyzeCached fetch detailsOf now cache0 ids sel
        (localizeToUtc tz sd) (localizeToUtc tz ed))

/-! ## Observables and invariants used in the statements -/

/-- All detail records of an Aggregate, across its `items` lists, in
order. -/
def allItems (agg : Aggregate) : List Item :=
  (agg.map (fun p => p.2.items)).flatten

/-- The deduplication key carried by a detail record: `mkItem` stores the
work item id, the new state and the raw timestamp string in the record
itself. -/
def itemKey (it : Item) : DedupKey := (it.id, it.new_state, it.date)

/-- The `count` recorded for a state (0 for a key not in the dict). -/
def stateCount (agg : Aggregate) (s : String) : Nat :=
  match List.lookup s agg with
  | some e => e.count
  | none => 0

/-- Whether an update reports a state change into `s`
(`fields['System.State']['newValue'] == s`). -/
def observedState (u : Update) (s : String) : Bool :=
  match u.stateField with
  | some sc => sc.newValue == some s
  | none => false

/-- An update on which the reconciler's date extraction or parse fails:
`Microsoft.VSTS.Common.StateChangeDate` absent, its `newValue` absent or
falsy, or the cleaned timestamp rejected by `strptime`. -/
def dateSkips (u : Update) : Bool :=
  match u.stateChangeDateField with
  | none => true
  | some f =>
    match f.newValue with
    | none => true
    | some s => s == "" || (parseStateDate s).isNone

/-- Count and items agree in every entry. -/
def CountLen (agg : Aggregate) : Prop :=
  ∀ p ∈ agg, p.2.count = p.2.items.length

/-- Loop-state invariant behind the dedup guarantee: item keys are
pairwise distinct and every emitted key has been recorded in
`processed_items`. -/
def DedupInv (st : RecState) : Prop :=
  ((allItems st.agg).map itemKey).Nodup ∧ ∀ it ∈ allItems st.agg, itemKey it ∈ st.processed

/-- A warm `work_item_updates_cache` agreeing with the fetcher: every
entry holds exactly the (enriched) records the fetch would produce, and
is fresh. -/
def CacheInv (fetch : Nat → Except String (List Update))
    (detailsOf : Nat → Option WIDetails) (now : Int) (cache : UpdCache) : Prop :=
  ∀ p ∈ cache, p.2.updates = fetchVal fetch detailsOf p.1 ∧ now - p.2.timestamp < cache_duration

/-! ## Spec-side window normalizer (for the refinement claim C9)

These definitions follow the words of spec §4.1, to be compared with the
code-side `datetimeMinCombine`/`datetimeMaxCombine`/`localizeToUtc`
composition. -/

/-- A local wall-clock value converted to UTC: subtract the zone's offset
at that wall time. -/
def localWallToUtc (tz : Int → Int) (wall : Int) : Int := wall - tz wall

/-- The wall-clock microsecond count of day `d` at `h:m:s.us`. -/
def wallClockUs (d h m s us : Int) : Int :=
  d * usPerDay + h * 3600000000 + m * 60000000 + s * 1000000 + us

/-- Spec §4.1: `start_utc` = local midnight (00:00:00) of the start date
converted to UTC. -/
def specStartUtc (tz : Int → Int) (d : Int) : Int :=
  localWallToUtc tz (wallClockUs d 0 0 0 0)

/-- Spec §4.1: `end_utc` = local 23:59:59.999999 of the end date
converted to UTC. -/
def specEndUtc (tz : Int → Int) (d : Int) : Int :=
  localWallToUtc tz (wallClockUs d 23 59 59 999999)

/-! ## Concrete fixtures (used to instantiate theorems with hypotheses) -/

/-- A UTC-like host timezone: offset 0 at every wall time. -/
def tzZero : Int → Int := fun _ => 0

/-- A well-formed update: transition into "Active" at
2024-01-15T10:00:00.000Z. -/
def updGood : Update :=
  { stateField := some ⟨some "New", some "Active"⟩
    stateChangeDateField := some ⟨none, some "2024-01-15T10:00:00.000Z"⟩
    titleField := some ⟨none, some "Fix login"⟩
    typeField := some ⟨none, some "Bug"⟩
    areaPathField := none
    tagsField := none
    revisedByDisplayName := some "Alice"
    details := none }

/-- An update with a state change but an unparseable transition
timestamp. -/
def updBadDate : Update :=
  { stateField := some ⟨some "New", some "Active"⟩
    stateChangeDateField := some ⟨none, some "not-a-date"⟩
    titleField := none
    typeField := none
    areaPathField := none
    tagsField := none
    revisedByDisplayName := none
    details := none }

/-- A fetch oracle: item 7 has one update, every other item errors. -/
def fetchW : Nat → Except String (List Update) :=
  fun wid => if wid = 7 then .ok [updGood] else .error "http 500"

/-- A details oracle returning the empty dict. -/
def detW : Nat → Option WIDetails := fun _ => none

/-- A pure record source: item 7 has one update, others none. -/
def updF : Nat → List Update := fun wid => if wid = 7 then [updGood] else []

/-- A warm updates cache agreeing with `fetchW`/`detW` at time 1000. -/
def warmW : UpdCache := [(7, ⟨[updGood], 500⟩)]

/-! ## Basic lemmas -/

theorem foldl_preserve_mem {α β : Type} (P : α → Prop) (f : α → β → α) (l : List β)
    (h : ∀ a b, b ∈ l → P a → P (f a b)) (a : α) (ha : P a) : P (l.foldl f a) := by
  induction l generalizing a with
  | nil => exact ha
  | cons b t ih =>
    exact ih (fun x y hy hx => h x y (List.mem_cons_of_mem _ hy) hx)
      (f a b) (h a b (List.mem_cons_self _ _) ha)

theorem lookup_some_mem {α β : Type} [BEq α] [LawfulBEq α] {l : List (α × β)} {k : α} {v : β}
    (h : List.lookup k l = some v) : (k, v) ∈ l := by
  rcases List.lookup_eq_some_iff.mp h with ⟨l₁, l₂, rfl, _⟩
  exact List.mem_append.mpr (Or.inr (List.mem_cons_self _ _))

@[simp] theorem allItems_nil : allItems [] = [] := rfl

theorem allItems_cons (p : String × StateEntry) (rest : Aggregate) :
    allItems (p :: rest) = p.2.items ++ allItems rest := rfl

theorem bumpState_map_fst (agg : Aggregate) (s : String) (it : Item) :
    (bumpState agg s it).map Prod.fst = agg.map Prod.fst := by
  induction agg with
  | nil => rfl
  | cons p rest ih =>
    rcases p with ⟨k, e⟩
    by_cases h : k = s <;> simp [bumpState, h, ih]

theorem bumpState_of_not_mem {agg : Aggregate} {s : String} (it : Item)
    (h : s ∉ agg.map Prod.fst) : bumpState agg s it = agg := by
  induction agg with
  | nil => rfl
  | cons p rest ih =>
    rcases p with ⟨k, e⟩
    simp only [List.map_cons, List.mem_cons] at h
    push_neg at h
    simp [bumpState, Ne.symm h.1, ih h.2]

theorem allItems_bumpState_perm {agg : Aggregate} {s : String} (it : Item)
    (h : s ∈ agg.map Prod.fst) :
    List.Perm (allItems (bumpState agg s it)) (it :: allItems agg) := by
  induction agg with
  | nil => simp at h
  | cons p rest ih =>
    rcases p with ⟨k, e⟩
    by_cases hk : k = s
    · simp only [bumpState, if_pos hk, allItems_cons]
      exact (List.perm_append_singleton it e.items).append_right _
    · have hs : s ∈ rest.map Prod.fst := by
        simp only [List.map_cons, List.mem_cons] at h
        exact h.resolve_left (fun hh => hk hh.symm)
      simp only [bumpState, if_neg hk, allItems_cons]
      exact (List.Perm.append_left e.items (ih hs)).trans List.perm_middle

theorem lookup_bumpState_ne {agg : Aggregate} {s k : String} (it : Item) (h : k ≠ s) :
    List.lookup k (bumpState agg s it) = List.lookup k agg := by
  induction agg with
  | nil => rfl
  | cons p rest ih =>
    rcases p with ⟨k2, e⟩
    by_cases hk : k2 = s
    · subst hk
      have hb : (k == k2) = false := by simp [h]
      have hbump : bumpState ((k2, e) :: rest) k2 it
          = (k2, ⟨e.count + 1, e.items ++ [it]⟩) :: rest := by simp [bumpState]
      rw [hbump]
      simp [List.lookup_cons, hb]
    · simp only [bumpState, if_neg hk, List.lookup_cons]
      cases hkk : k == k2 <;> simp [ih]

theorem stateCount_cons_ne {e : StateEntry} {rest : Aggregate} {k s : String}
    (h : k ≠ s) : stateCount ((k, e) :: rest) s = stateCount rest s := by
  have hb : (s == k) = false := by simp [Ne.symm h]
  simp [stateCount, List.lookup_cons, hb]

theorem stateCount_bumpState {agg : Aggregate} {s : String} (it : Item)
    (h : s ∈ agg.map Prod.fst) :
    stateCount (bumpState agg s it) s = stateCount agg s + 1 := by
  induction agg with
  | nil => simp at h
  | cons p rest ih =>
    rcases p with ⟨k, e⟩
    by_cases hk : k = s
    · subst hk
      simp [bumpState, stateCount, List.lookup_cons]
    · have hs : s ∈ rest.map Prod.fst := by
        simp only [List.map_cons, List.mem_cons] at h
        exact h.resolve_left (fun hh => hk hh.symm)
      simp only [bumpState, if_neg hk]
      rw [stateCount_cons_ne hk, stateCount_cons_ne hk]
      exact ih hs

theorem lookup_initAgg {sel : List String} {s : String} (h : s ∈ sel) :
    List.lookup s (initAgg sel) = some ⟨0, []⟩ := by
  induction sel with
  | nil => simp at h
  | cons a t ih =>
    by_cases ha : s = a
    · subst ha
      simp [initAgg, List.lookup_cons]
    · have ht : s ∈ t := (List.mem_cons.mp h).resolve_left ha
      have hb : (s == a) = false := by simp [ha]
      rw [show initAgg (a :: t) = (a, ⟨0, []⟩) :: initAgg t from rfl, List.lookup_cons, hb]
      exact ih ht

/-- Case analysis on one record step: either the record is skipped and
the loop state is untouched, or the record passes every filter (state
change present, state selected, timestamp parsed and inside the window,
key unseen) and the state is extended. -/
theorem processUpdate_eq_or (sel : List String) (su eu : Int) (wid : Nat)
    (st : RecState) (u : Update) :
    processUpdate sel su eu wid st u = st ∨
    ∃ sc ns ds t, u.stateField = some sc ∧ sc.newValue = some ns ∧ ns ∈ sel ∧
      parseStateDate ds = some t ∧ su ≤ t ∧ t ≤ eu ∧
      (wid, ns, ds) ∉ st.processed ∧
      processUpdate sel su eu wid st u =
        ⟨bumpState st.agg ns (mkItem wid u sc ns ds), (wid, ns, ds) :: st.processed⟩ := by
  cases hsf : u.stateField with
  | none => exact Or.inl (by simp [processUpdate, hsf])
  | some sc =>
    cases hnv : sc.newValue with
    | none => exact Or.inl (by simp [processUpdate, hsf, hnv])
    | some ns =>
      by_cases hin : ns ∈ sel
      · cases hscd : u.stateChangeDateField with
        | none => exact Or.inl (by simp [processUpdate, hsf, hnv, hin, hscd])
        | some scd =>
          cases hdv : scd.newValue with
          | none => exact Or.inl (by simp [processUpdate, hsf, hnv, hin, hscd, hdv])
          | some ds =>
            by_cases hds : ds = ""
            · exact Or.inl (by simp [processUpdate, hsf, hnv, hin, hscd, hdv, hds])
            · cases hp : parseStateDate ds with
              | none =>
                exact Or.inl (by simp [processUpdate, hsf, hnv, hin, hscd, hdv, hds, hp])
              | some t =>
                by_cases hw : su ≤ t ∧ t ≤ eu
                · by_cases hk : (wid, ns, ds) ∈ st.processed
                  · exact Or.inl
                      (by simp [processUpdate, hsf, hnv, hin, hscd, hdv, hds, hp, hw, hk])
                  · refine Or.inr ⟨sc, ns, ds, t, hsf ▸ rfl, hnv, hin, hp, hw.1, hw.2, hk, ?_⟩
                    simp [processUpdate, hsf, hnv, hin, hscd, hdv, hds, hp, hw, hk]
                · exact Or.inl (by simp [processUpdate, hsf, hnv, hin, hscd, hdv, hds, hp, hw])
      · exact Or.inl (by simp [processUpdate, hsf, hnv, hin])

/-! ## Invariant preservation through the loop -/

theorem countLen_initAgg (sel : List String) : CountLen (initAgg sel) := by
  intro p hp
  simp only [initAgg, List.mem_map] at hp
  rcases hp with ⟨s, _, rfl⟩
  rfl

theorem countLen_bumpState (s : String) (it : Item) :
    ∀ agg : Aggregate, CountLen agg → CountLen (bumpState agg s it) := by
  intro agg
  induction agg with
  | nil => intro h; simpa [bumpState] using h
  | cons p rest ih =>
    rcases p with ⟨k, e⟩
    intro h q hq
    by_cases hk : k = s
    · simp only [bumpState, if_pos hk, List.mem_cons] at hq
      rcases hq with rfl | hq
      · have he := h (k, e) (List.mem_cons_self _ _)
        simp only at he
        simp [he]
      · exact h q (List.mem_cons_of_mem _ hq)
    · simp only [bumpState, if_neg hk, List.mem_cons] at hq
      rcases hq with rfl | hq
      · exact h _ (List.mem_cons_self _ _)
      · exact ih (fun r hr => h r (List.mem_cons_of_mem _ hr)) q hq

theorem countLen_processUpdate (sel : List String) (su eu : Int) (wid : Nat)
    (st : RecState) (u : Update) (h : CountLen st.agg) :
    CountLen (processUpdate sel su eu wid st u).agg := by
  rcases processUpdate_eq_or sel su eu wid st u with heq |
    ⟨sc, ns, ds, t, _, _, _, _, _, _, _, heq⟩
  · rw [heq]; exact h
  · rw [heq]; exact countLen_bumpState ns (mkItem wid u sc ns ds) st.agg h

theorem dedupInv_processUpdate (sel : List String) (su eu : Int) (wid : Nat)
    (st : RecState) (u : Update) (h : DedupInv st) :
    DedupInv (processUpdate sel su eu wid st u) := by
  rcases processUpdate_eq_or sel su eu wid st u with heq |
    ⟨sc, ns, ds, t, _, _, _, _, _, _, hk, heq⟩
  · rw [heq]; exact h
  · rw [heq]
    by_cases hmem : ns ∈ st.agg.map Prod.fst
    · have hperm := allItems_bumpState_perm (mkItem wid u sc ns ds) hmem
      refine ⟨?_, ?_⟩
      · rw [(hperm.map itemKey).nodup_iff]
        refine List.nodup_cons.mpr ⟨fun hmemk => ?_, h.1⟩
        rcases List.mem_map.mp hmemk with ⟨it2, hit2, hkeq⟩
        have h2 := h.2 it2 hit2
        rw [hkeq] at h2
        exact hk h2
      · intro it hit
        rcases List.mem_cons.mp (hperm.mem_iff.mp hit) with rfl | hold
        · exact List.mem_cons_self _ _
        · exact List.mem_cons_of_mem _ (h.2 it hold)
    · refine ⟨?_, ?_⟩
      · rw [show (RecState.mk (bumpState st.agg ns (mkItem wid u sc ns ds))
            ((wid, ns, ds) :: st.processed)).agg = bumpState st.agg ns (mkItem wid u sc ns ds)
            from rfl, bumpState_of_not_mem _ hmem]
        exact h.1
      · intro it hit
        rw [show (RecState.mk (bumpState st.agg ns (mkItem wid u sc ns ds))
            ((wid, ns, ds) :: st.processed)).agg = bumpState st.agg ns (mkItem wid u sc ns ds)
            from rfl, bumpState_of_not_mem _ hmem] at hit
        exact List.mem_cons_of_mem _ (h.2 it hit)

theorem processUpdate_map_fst (sel : List String) (su eu : Int) (wid : Nat)
    (st : RecState) (u : Update) :
    (processUpdate sel su eu wid st u).agg.map Prod.fst = st.agg.map Prod.fst := by
  rcases processUpdate_eq_or sel su eu wid st u with heq |
    ⟨sc, ns, ds, t, _, _, _, _, _, _, _, heq⟩
  · rw [heq]
  · rw [heq]; exact bumpState_map_fst _ _ _

theorem processUpdate_newState_mem (sel : List String) (su eu : Int) (wid : Nat)
    (st : RecState) (u : Update) (h : ∀ it ∈ allItems st.agg, it.new_state ∈ sel) :
    ∀ it ∈ allItems (processUpdate sel su eu wid st u).agg, it.new_state ∈ sel := by
  rcases processUpdate_eq_or sel su eu wid st u with heq |
    ⟨sc, ns, ds, t, _, _, hin, _, _, _, _, heq⟩
  · rw [heq]; exact h
  · rw [heq]
    by_cases hmem : ns ∈ st.agg.map Prod.fst
    · intro it hit
      rcases List.mem_cons.mp
        ((allItems_bumpState_perm (mkItem wid u sc ns ds) hmem).mem_iff.mp hit) with rfl | hold
      · exact hin
      · exact h it hold
    · intro it hit
      rw [show (RecState.mk (bumpState st.agg ns (mkItem wid u sc ns ds))
          ((wid, ns, ds) :: st.processed)).agg = bumpState st.agg ns (mkItem wid u sc ns ds)
          from rfl, bumpState_of_not_mem _ hmem] at hit
      exact h it hit

theorem processUpdate_lookup_not_observed (sel : List String) (su eu : Int) (wid : Nat)
    (st : RecState) (u : Update) (s : String) (hobs : observedState u s = false) :
    List.lookup s (processUpdate sel su eu wid st u).agg = List.lookup s st.agg := by
  rcases processUpdate_eq_or sel su eu wid st u with heq |
    ⟨sc, ns, ds, t, hsf, hnv, _, _, _, _, _, heq⟩
  · rw [heq]
  · rw [heq]
    have hns : s ≠ ns := by
      intro hEq
      subst hEq
      simp only [observedState, hsf, hnv] at hobs
      simp at hobs
    exact lookup_bumpState_ne _ hns

theorem processUpdate_of_end_lt_start {sel : List String} {su eu : Int} {wid : Nat}
    {st : RecState} {u : Update} (h : eu < su) :
    processUpdate sel su eu wid st u = st := by
  rcases processUpdate_eq_or sel su eu wid st u with heq |
    ⟨_, _, _, t, _, _, _, _, h1, h2, _, _⟩
  · exact heq
  · exact absurd (le_trans h1 h2) (not_le.mpr h)

theorem processUpdate_agg_nil {sel : List String} {su eu : Int} {wid : Nat}
    {st : RecState} {u : Update} (h : st.agg = []) :
    (processUpdate sel su eu wid st u).agg = [] := by
  rcases processUpdate_eq_or sel su eu wid st u with heq |
    ⟨sc, ns, ds, t, _, _, _, _, _, _, _, heq⟩
  · rw [heq, h]
  · rw [heq]
    rw [show (RecState.mk (bumpState st.agg ns (mkItem wid u sc ns ds))
        ((wid, ns, ds) :: st.processed)).agg = bumpState st.agg ns (mkItem wid u sc ns ds)
        from rfl, h]
    rfl

theorem processUpdate_of_dateSkips {sel : List String} {su eu : Int} {wid : Nat}
    {st : RecState} {u : Update} (hskip : dateSkips u = true) :
    processUpdate sel su eu wid st u = st := by
  cases hsf : u.stateField with
  | none => simp [processUpdate, hsf]
  | some sc =>
    cases hnv : sc.newValue with
    | none => simp [processUpdate, hsf, hnv]
    | some ns =>
      by_cases hin : ns ∈ sel
      · cases hscd : u.stateChangeDateField with
        | none => simp [processUpdate, hsf, hnv, hin, hscd]
        | some f =>
          cases hdv : f.newValue with
          | none => simp [processUpdate, hsf, hnv, hin, hscd, hdv]
          | some ds =>
            simp only [dateSkips, hscd, hdv] at hskip
            by_cases hds : ds = ""
            · simp [processUpdate, hsf, hnv, hin, hscd, hdv, hds]
            · have hp : parseStateDate ds = none := by
                rcases Bool.or_eq_true_iff.mp hskip with hb | hb
                · exact absurd (by simpa using hb) hds
                · exact Option.isNone_iff_eq_none.mp hb
              simp [processUpdate, hsf, hnv, hin, hscd, hdv, hds, hp]
      · simp [processUpdate, hsf, hnv, hin]

/-! ## The cache is transparent -/

theorem CacheInv_nil (fetch : Nat → Except String (List Update))
    (det : Nat → Option WIDetails) (now : Int) : CacheInv fetch det now [] := by
  intro p hp
  simp at hp

theorem get_work_item_updates_spec {fetch : Nat → Except String (List Update)}
    {det : Nat → Option WIDetails} {now : Int} {cache : UpdCache}
    (h : CacheInv fetch det now cache) (wid : Nat) :
    (get_work_item_updates fetch det now cache wid).1 = fetchVal fetch det wid
    ∧ CacheInv fetch det now (get_work_item_updates fetch det now cache wid).2 := by
  cases hl : List.lookup wid cache with
  | some c =>
    have hc := h (wid, c) (lookup_some_mem hl)
    rw [show get_work_item_updates fetch det now cache wid = (c.updates, cache) from by
      simp [get_work_item_updates, hl, hc.2]]
    exact ⟨hc.1, h⟩
  | none =>
    cases hf : fetch wid with
    | ok us =>
      rw [show get_work_item_updates fetch det now cache wid
          = (enrich (det wid) us, (wid, ⟨enrich (det wid) us, now⟩) :: cache) from by
        simp [get_work_item_updates, fetchUpdates, hl, hf]]
      refine ⟨by simp [fetchVal, hf], ?_⟩
      intro p hp
      rcases List.mem_cons.mp hp with rfl | hp2
      · refine ⟨by simp [fetchVal, hf], ?_⟩
        show now - now < cache_duration
        rw [sub_self]
        norm_num [cache_duration]
      · exact h p hp2
    | error e =>
      rw [show get_work_item_updates fetch det now cache wid = ([], cache) from by
        simp [get_work_item_updates, fetchUpdates, hl, hf]]
      exact ⟨by simp [fetchVal, hf], h⟩

theorem analyzeCached_fold (fetch : Nat → Except String (List Update))
    (det : Nat → Option WIDetails) (now : Int) (sel : List String) (su eu : Int) :
    ∀ (ids : List Nat) (st : RecState) (cache : UpdCache), CacheInv fetch det now cache →
      (ids.foldl (analyzeLoop fetch det now sel su eu) (st, cache)).1
        = ids.foldl (fun s wid => processItemUpdates sel su eu wid s (fetchVal fetch det wid)) st := by
  intro ids
  induction ids with
  | nil => intro st cache _; rfl
  | cons wid rest ih =>
    intro st cache h
    have hs := get_work_item_updates_spec h wid
    rw [List.foldl_cons, List.foldl_cons,
      show analyzeLoop fetch det now sel su eu (st, cache) wid
        = (processItemUpdates sel su eu wid st (fetchVal fetch det wid),
           (get_work_item_updates fetch det now cache wid).2) from by
        simp [analyzeLoop, hs.1]]
    exact ih _ _ hs.2

theorem analyzeCached_eq_core {fetch : Nat → Except String (List Update)}
    {det : Nat → Option WIDetails} {now : Int} {cache0 : UpdCache}
    (h : CacheInv fetch det now cache0) (ids : List Nat) (sel : List String) (su eu : Int) :
    (analyzeCached fetch det now cache0 ids sel su eu).1
      = analyze_core (fetchVal fetch det) ids sel su eu := by
  have hfold := analyzeCached_fold fetch det now sel su eu ids ⟨initAgg sel, []⟩ cache0 h
  simp only [analyzeCached, analyze_core]
  rw [hfold]

theorem foldl_filter_skip {α : Type} (g : α → Nat → α) (B : Nat) (hg : ∀ a, g a B = a) :
    ∀ (l : List Nat) (a : α), l.foldl g a = (l.filter (fun i => i ≠ B)).foldl g a := by
  intro l
  induction l with
  | nil => intro a; rfl
  | cons x t ih =>
    intro a
    by_cases hx : x = B
    · subst hx
      have hfc : (x :: t).filter (fun i => i ≠ x) = t.filter (fun i => i ≠ x) := by simp
      rw [hfc, List.foldl_cons, hg a]
      exact ih a
    · have hfc : (x :: t).filter (fun i => i ≠ B) = x :: t.filter (fun i => i ≠ B) := by
        simp [hx]
      rw [hfc, List.foldl_cons, List.foldl_cons]
      exact ih (g a x)

/-! ## Fold wrappers -/

theorem foldl_id {α β : Type} (f : α → β → α) (hf : ∀ a b, f a b = a) :
    ∀ (l : List β) (a : α), l.foldl f a = a := by
  intro l
  induction l with
  | nil => intro a; rfl
  | cons b t ih =>
    intro a
    rw [List.foldl_cons, hf]
    exact ih a

theorem initAgg_map_fst (sel : List String) : (initAgg sel).map Prod.fst = sel := by
  induction sel with
  | nil => rfl
  | cons a t ih =>
    rw [show initAgg (a :: t) = (a, ⟨0, []⟩) :: initAgg t from rfl, List.map_cons, ih]

theorem allItems_initAgg (sel : List String) : allItems (initAgg sel) = [] := by
  induction sel with
  | nil => rfl
  | cons a t ih =>
    rw [show initAgg (a :: t) = (a, ⟨0, []⟩) :: initAgg t from rfl, allItems_cons]
    simpa using ih

theorem countLen_processItemUpdates (sel : List String) (su eu : Int) (wid : Nat)
    (st : RecState) (us : List Update) (h : CountLen st.agg) :
    CountLen (processItemUpdates sel su eu wid st us).agg := by
  simp only [processItemUpdates]
  exact foldl_preserve_mem (fun a => CountLen a.agg) (processUpdate sel su eu wid) us
    (fun a b _ ha => countLen_processUpdate sel su eu wid a b ha) st h

theorem dedupInv_processItemUpdates (sel : List String) (su eu : Int) (wid : Nat)
    (st : RecState) (us : List Update) (h : DedupInv st) :
    DedupInv (processItemUpdates sel su eu wid st us) := by
  simp only [processItemUpdates]
  exact foldl_preserve_mem DedupInv (processUpdate sel su eu wid) us
    (fun a b _ ha => dedupInv_processUpdate sel su eu wid a b ha) st h

theorem processItemUpdates_map_fst (sel : List String) (su eu : Int) (wid : Nat)
    (st : RecState) (us : List Update) :
    (processItemUpdates sel su eu wid st us).agg.map Prod.fst = st.agg.map Prod.fst := by
  simp only [processItemUpdates]
  exact foldl_preserve_mem (fun a => a.agg.map Prod.fst = st.agg.map Prod.fst)
    (processUpdate sel su eu wid) us
    (fun a b _ ha => (processUpdate_map_fst sel su eu wid a b).trans ha) st rfl

theorem processItemUpdates_newState (sel : List String) (su eu : Int) (wid : Nat)
    (st : RecState) (us : List Update) (h : ∀ it ∈ allItems st.agg, it.new_state ∈ sel) :
    ∀ it ∈ allItems (processItemUpdates sel su eu wid st us).agg, it.new_state ∈ sel := by
  simp only [processItemUpdates]
  exact foldl_preserve_mem (fun a => ∀ it ∈ allItems a.agg, it.new_state ∈ sel)
    (processUpdate sel su eu wid) us
    (fun a b _ ha => processUpdate_newState_mem sel su eu wid a b ha) st h

theorem lookup_processItemUpdates (sel : List String) (su eu : Int) (wid : Nat)
    (st : RecState) (us : List Update) (s : String)
    (hobs : ∀ u ∈ us, observedState u s = false) :
    List.lookup s (processItemUpdates sel su eu wid st us).agg = List.lookup s st.agg := by
  simp only [processItemUpdates]
  exact foldl_preserve_mem (fun a => List.lookup s a.agg = List.lookup s st.agg)
    (processUpdate sel su eu wid) us
    (fun a b hb ha =>
      (processUpdate_lookup_not_observed sel su eu wid a b s (hobs b hb)).trans ha) st rfl

theorem analyzeCached_recState_inv (P : RecState → Prop)
    (fetch : Nat → Except String (List Update)) (det : Nat → Option WIDetails)
    (now : Int) (sel : List String) (su eu : Int)
    (hstep : ∀ (st : RecState) (wid : Nat) (us : List Update),
      P st → P (processItemUpdates sel su eu wid st us)) :
    ∀ (ids : List Nat) (st : RecState) (cache : UpdCache), P st →
      P (ids.foldl (analyzeLoop fetch det now sel su eu) (st, cache)).1 := by
  intro ids
  induction ids with
  | nil => intro st cache h; exact h
  | cons wid rest ih =>
    intro st cache h
    rw [List.foldl_cons]
    exact ih (analyzeLoop fetch det now sel su eu (st, cache) wid).1
      (analyzeLoop fetch det now sel su eu (st, cache) wid).2 (hstep st wid _ h)

theorem analyze_state_changes_ok {fetch : Nat → Except String (List Update)}
    {det : Nat → Option WIDetails} {now : Int} {cache0 : UpdCache} {tz : Int → Int}
    {ids : List Nat} {sel : List String} {sd ed : DateInput} {r : Aggregate × UpdCache}
    (hok : analyze_state_changes fetch det now cache0 tz ids sel sd ed = .ok r) :
    ∃ d1 d2, resolveDateInput sd = .ok d1 ∧ resolveDateInput ed = .ok d2 ∧
      r = analyzeCached fetch det now cache0 ids sel
        (localizeToUtc tz d1) (localizeToUtc tz d2) := by
  cases hsd : resolveDateInput sd with
  | error e => simp [analyze_state_changes, hsd] at hok
  | ok d1 =>
    cases hed : resolveDateInput ed with
    | error e => simp [analyze_state_changes, hsd, hed] at hok
    | ok d2 =>
      refine ⟨d1, d2, rfl, rfl, ?_⟩
      simp only [analyze_state_changes, hsd, hed, Except.ok.injEq] at hok
      exact hok.symm

theorem except_map_fst_ok {ε α β : Type} (f : α → β) (x : α) :
    Except.map f (Except.ok x : Except ε α) = Except.ok (f x) := rfl

theorem except_map_fst_error {ε α β : Type} (f : α → β) (e : ε) :
    Except.map f (Except.error e : Except ε α) = Except.error e := rfl

/-! ## Claim theorems -/

/-- C1: For every change record processed by `analyze_state_changes` whose parsed
UTC transition timestamp `t` satisfies `start_utc <= t <= end_utc` (both bounds
inclusive), the transition is counted in the Aggregate; a timestamp exactly equal
to a bound is included, and one strictly outside either bound contributes
nothing.  Formally: a record that passes the state/date filters is folded into
the loop state exactly when `su ≤ t ∧ t ≤ eu`, in which case the state's count
rises by one; otherwise the state is returned untouched. -/
theorem c1_window_inclusive (sel : List String) (su eu : Int) (wid : Nat)
    (st : RecState) (u : Update) (sc scd : FieldDelta) (ns ds : String) (t : Int)
    (hsf : u.stateField = some sc) (hnv : sc.newValue = some ns) (hin : ns ∈ sel)
    (hscd : u.stateChangeDateField = some scd) (hdv : scd.newValue = some ds)
    (hds : ds ≠ "") (hp : parseStateDate ds = some t)
    (hk : (wid, ns, ds) ∉ st.processed) (hmem : ns ∈ st.agg.map Prod.fst) :
    processUpdate sel su eu wid st u
      = (if su ≤ t ∧ t ≤ eu then
          RecState.mk (bumpState st.agg ns (mkItem wid u sc ns ds))
            ((wid, ns, ds) :: st.processed)
        else st)
    ∧ stateCount (processUpdate sel su eu wid st u).agg ns
        = stateCount st.agg ns + (if su ≤ t ∧ t ≤ eu then 1 else 0) := by
  have heq : processUpdate sel su eu wid st u
      = (if su ≤ t ∧ t ≤ eu then
          RecState.mk (bumpState st.agg ns (mkItem wid u sc ns ds))
            ((wid, ns, ds) :: st.processed)
        else st) := by
    by_cases hw : su ≤ t ∧ t ≤ eu
    · rw [if_pos hw]
      simp [processUpdate, hsf, hnv, hin, hscd, hdv, hds, hp, hw, hk]
    · rw [if_neg hw]
      simp [processUpdate, hsf, hnv, hin, hscd, hdv, hds, hp, hw]
  refine ⟨heq, ?_⟩
  rw [heq]
  by_cases hw : su ≤ t ∧ t ≤ eu
  · rw [if_pos hw, if_pos hw]
    exact stateCount_bumpState _ hmem
  · rw [if_neg hw, if_neg hw, Nat.add_zero]

/-- Witness for C1: a transition timestamp exactly equal to both window bounds
(2024-01-15T10:00:00Z) is counted. -/
theorem c1_witness :
    stateCount (processUpdate ["Active"] 1705312800000000 1705312800000000 101
      ⟨initAgg ["Active"], []⟩ updGood).agg "Active" = 1 := by
  have h := c1_window_inclusive ["Active"] 1705312800000000 1705312800000000 101
    ⟨initAgg ["Active"], []⟩ updGood ⟨some "New", some "Active"⟩
    ⟨none, some "2024-01-15T10:00:00.000Z"⟩ "Active" "2024-01-15T10:00:00.000Z"
    1705312800000000 rfl rfl (by decide) rfl rfl (by decide) (by decide) (by decide)
    (by decide)
  rw [h.2]
  decide

/-- C2: No two entries across the items lists of an Aggregate returned by
`analyze_state_changes` share the deduplication key
`(work_item_id, new_state, raw_timestamp_string)`; in particular an identical
triple supplied twice contributes one entry, not two. -/
theorem c2_dedup_keys (fetch : Nat → Except String (List Update))
    (det : Nat → Option WIDetails) (now : Int) (cache0 : UpdCache) (tz : Int → Int)
    (ids : List Nat) (sel : List String) (sd ed : DateInput) (r : Aggregate × UpdCache)
    (hok : analyze_state_changes fetch det now cache0 tz ids sel sd ed = .ok r) :
    ((allItems r.1).map itemKey).Nodup := by
  rcases analyze_state_changes_ok hok with ⟨d1, d2, _, _, rfl⟩
  have hinv := analyzeCached_recState_inv DedupInv fetch det now sel
    (localizeToUtc tz d1) (localizeToUtc tz d2)
    (fun st wid us h => dedupInv_processItemUpdates sel _ _ wid st us h)
    ids ⟨initAgg sel, []⟩ cache0
    ⟨by rw [show (RecState.mk (initAgg sel) []).agg = initAgg sel from rfl, allItems_initAgg]
        exact List.nodup_nil,
     by intro it hit
        rw [show (RecState.mk (initAgg sel) []).agg = initAgg sel from rfl,
          allItems_initAgg] at hit
        simp at hit⟩
  exact hinv.1

/-- Witness for C2: a run whose id list repeats item 7 (two overlapping
batches) still has pairwise-distinct keys. -/
theorem c2_witness :
    ((allItems (analyzeCached fetchW detW 1000 [] [7, 7] ["Active"] 0
      1705312800000000).1).map itemKey).Nodup :=
  c2_dedup_keys fetchW detW 1000 [] tzZero [7, 7] ["Active"]
    (.dt (.naive 0)) (.dt (.aware 1705312800000000)) _ rfl

/-- C3: the Aggregate's keys are exactly the caller's selected states in order;
a selected state observed in no processed change record keeps `count = 0` and
`items = []`; and no emitted entry carries a `new_state` outside the selected
set. -/
theorem c3_state_set_closure (updatesOf : Nat → List Update) (ids : List Nat)
    (sel : List String) (su eu : Int) (s : String) (_hnd : sel.Nodup) (hs : s ∈ sel)
    (hobs : ∀ wid ∈ ids, ∀ u ∈ updatesOf wid, observedState u s = false) :
    ((analyze_core updatesOf ids sel su eu).map Prod.fst = sel)
    ∧ List.lookup s (analyze_core updatesOf ids sel su eu) = some ⟨0, []⟩
    ∧ ∀ it ∈ allItems (analyze_core updatesOf ids sel su eu), it.new_state ∈ sel := by
  refine ⟨?_, ?_, ?_⟩
  · exact foldl_preserve_mem (fun st => st.agg.map Prod.fst = sel)
      (fun st wid => processItemUpdates sel su eu wid st (updatesOf wid)) ids
      (fun a wid _ ha => (processItemUpdates_map_fst sel su eu wid a (updatesOf wid)).trans ha)
      ⟨initAgg sel, []⟩ (initAgg_map_fst sel)
  · exact foldl_preserve_mem (fun st => List.lookup s st.agg = some ⟨0, []⟩)
      (fun st wid => processItemUpdates sel su eu wid st (updatesOf wid)) ids
      (fun a wid hwid ha =>
        (lookup_processItemUpdates sel su eu wid a (updatesOf wid) s (hobs wid hwid)).trans ha)
      ⟨initAgg sel, []⟩ (lookup_initAgg hs)
  · exact foldl_preserve_mem (fun st => ∀ it ∈ allItems st.agg, it.new_state ∈ sel)
      (fun st wid => processItemUpdates sel su eu wid st (updatesOf wid)) ids
      (fun a wid _ ha => processItemUpdates_newState sel su eu wid a (updatesOf wid) ha)
      ⟨initAgg sel, []⟩
      (by intro it hit
          rw [show (RecState.mk (initAgg sel) []).agg = initAgg sel from rfl,
            allItems_initAgg] at hit
          simp at hit)

/-- Witness for C3: "Resolved" is selected but never observed, so it stays at
`{count = 0, items = []}`, while the key list is exactly the selected pair. -/
theorem c3_witness :
    ((analyze_core updF [7] ["Active", "Resolved"] 0 1705312800000000).map Prod.fst
        = ["Active", "Resolved"])
    ∧ List.lookup "Resolved" (analyze_core updF [7] ["Active", "Resolved"] 0 1705312800000000)
        = some ⟨0, []⟩
    ∧ ∀ it ∈ allItems (analyze_core updF [7] ["Active", "Resolved"] 0 1705312800000000),
        it.new_state ∈ ["Active", "Resolved"] :=
  c3_state_set_closure updF [7] ["Active", "Resolved"] 0 1705312800000000 "Resolved"
    (by decide) (by decide) (by decide)

/-- C10: in every Aggregate returned by `analyze_state_changes`, each state
entry's `count` equals the length of its `items` list — the two are updated in
lock-step. -/
theorem c10_count_eq_items_length (fetch : Nat → Except String (List Update))
    (det : Nat → Option WIDetails) (now : Int) (cache0 : UpdCache) (tz : Int → Int)
    (ids : List Nat) (sel : List String) (sd ed : DateInput) (r : Aggregate × UpdCache)
    (hok : analyze_state_changes fetch det now cache0 tz ids sel sd ed = .ok r) :
    ∀ p ∈ r.1, p.2.count = p.2.items.length := by
  rcases analyze_state_changes_ok hok with ⟨d1, d2, _, _, rfl⟩
  have hinv := analyzeCached_recState_inv (fun st => CountLen st.agg) fetch det now sel
    (localizeToUtc tz d1) (localizeToUtc tz d2)
    (fun st wid us h => countLen_processItemUpdates sel _ _ wid st us h)
    ids ⟨initAgg sel, []⟩ cache0 (countLen_initAgg sel)
  exact hinv

/-- Witness for C10 at a concrete run that counts one transition: the
resulting "Active" entry has `count = 1` and a one-element items list. -/
theorem c10_witness :
    ("Active", (⟨1, [mkItem 7 updGood ⟨some "New", some "Active"⟩ "Active"
        "2024-01-15T10:00:00.000Z"]⟩ : StateEntry))
      ∈ (analyzeCached fetchW detW 1000 [] [7] ["Active"] 0 1705312800000000).1
    ∧ (⟨1, [mkItem 7 updGood ⟨some "New", some "Active"⟩ "Active"
        "2024-01-15T10:00:00.000Z"]⟩ : StateEntry).count
      = (⟨1, [mkItem 7 updGood ⟨some "New", some "Active"⟩ "Active"
          "2024-01-15T10:00:00.000Z"]⟩ : StateEntry).items.length :=
  ⟨by decide,
   c10_count_eq_items_length fetchW detW 1000 [] tzZero [7] ["Active"]
     (.dt (.naive 0)) (.dt (.aware 1705312800000000)) _ rfl
     ("Active", ⟨1, [mkItem 7 updGood ⟨some "New", some "Active"⟩ "Active"
       "2024-01-15T10:00:00.000Z"]⟩) (by decide)⟩

/-- C4: with a fixed record source, reconciling against a cold (empty) updates
cache and against a warm cache whose entries hold exactly the records the
fetch would produce (and are fresh) yields identical Aggregates: the result of
`analyze_state_changes` does not depend on whether `get_work_item_updates`
hits or misses the cache. -/
theorem c4_cache_transparent (fetch : Nat → Except String (List Update))
    (det : Nat → Option WIDetails) (now : Int) (warm : UpdCache) (tz : Int → Int)
    (ids : List Nat) (sel : List String) (sd ed : DateInput)
    (hwarm : CacheInv fetch det now warm) :
    Except.map Prod.fst (analyze_state_changes fetch det now [] tz ids sel sd ed)
      = Except.map Prod.fst (analyze_state_changes fetch det now warm tz ids sel sd ed) := by
  cases hsd : resolveDateInput sd with
  | error e => simp [analyze_state_changes, hsd]
  | ok d1 =>
    cases hed : resolveDateInput ed with
    | error e => simp [analyze_state_changes, hsd, hed]
    | ok d2 =>
      simp only [analyze_state_changes, hsd, hed, except_map_fst_ok]
      rw [analyzeCached_eq_core (CacheInv_nil fetch det now) ids sel
          (localizeToUtc tz d1) (localizeToUtc tz d2),
        analyzeCached_eq_core hwarm ids sel (localizeToUtc tz d1) (localizeToUtc tz d2)]

/-- Witness for C4: cold versus a concrete warm cache holding item 7's
records. -/
theorem c4_witness :
    Except.map Prod.fst (analyze_state_changes fetchW detW 1000 [] tzZero [7, 8] ["Active"]
        (.dt (.naive 0)) (.dt (.aware 1705312800000000)))
      = Except.map Prod.fst (analyze_state_changes fetchW detW 1000 warmW tzZero [7, 8]
          ["Active"] (.dt (.naive 0)) (.dt (.aware 1705312800000000))) :=
  c4_cache_transparent fetchW detW 1000 warmW tzZero [7, 8] ["Active"]
    (.dt (.naive 0)) (.dt (.aware 1705312800000000))
    (by
      intro p hp
      simp only [warmW, List.mem_singleton] at hp
      subst hp
      exact ⟨by decide, by decide⟩)

/-- C6: if fetching the history of item `B` fails while other fetches succeed,
`analyze_state_changes` still returns (the embedded `except` branch yields `[]`
for `B`), the failed item contributes nothing, and every other item's
transitions are reflected: the run equals the run with `B` removed from the id
set. -/
theorem c6_partial_failure (fetch : Nat → Except String (List Update))
    (det : Nat → Option WIDetails) (now : Int) (tz : Int → Int) (ids : List Nat)
    (sel : List String) (d1 d2 : PyDateTime) (B : Nat) (msg : String)
    (hB : fetch B = .error msg) :
    Except.map Prod.fst (analyze_state_changes fetch det now [] tz ids sel (.dt d1) (.dt d2))
      = Except.map Prod.fst (analyze_state_changes fetch det now [] tz
          (ids.filter (fun i => i ≠ B)) sel (.dt d1) (.dt d2)) := by
  simp only [analyze_state_changes, resolveDateInput, except_map_fst_ok]
  rw [analyzeCached_eq_core (CacheInv_nil fetch det now) ids sel
      (localizeToUtc tz d1) (localizeToUtc tz d2),
    analyzeCached_eq_core (CacheInv_nil fetch det now) (ids.filter (fun i => i ≠ B)) sel
      (localizeToUtc tz d1) (localizeToUtc tz d2)]
  have hskip : ∀ a : RecState,
      processItemUpdates sel (localizeToUtc tz d1) (localizeToUtc tz d2) B a
        (fetchVal fetch det B) = a := by
    intro a
    rw [show fetchVal fetch det B = [] from by simp [fetchVal, hB]]
    rfl
  unfold analyze_core
  rw [foldl_filter_skip
    (fun st wid => processItemUpdates sel (localizeToUtc tz d1) (localizeToUtc tz d2) wid st
      (fetchVal fetch det wid)) B hskip ids]

/-- Witness for C6: item 8's fetch fails; the run over `[7, 8]` equals the run
over `[7]`. -/
theorem c6_witness :
    Except.map Prod.fst (analyze_state_changes fetchW detW 1000 [] tzZero [7, 8] ["Active"]
        (.dt (.naive 0)) (.dt (.aware 1705312800000000)))
      = Except.map Prod.fst (analyze_state_changes fetchW detW 1000 [] tzZero
          ([7, 8].filter (fun i => i ≠ 8)) ["Active"]
          (.dt (.naive 0)) (.dt (.aware 1705312800000000))) :=
  c6_partial_failure fetchW detW 1000 tzZero [7, 8] ["Active"]
    (.naive 0) (.aware 1705312800000000) 8 "http 500" rfl

/-- C5 counterexample: the claim says `analyze_state_changes` raises on an
empty `selectedStates` set or an inverted window "rather than returning an
Aggregate".  In the embedding the function can raise (`Except.error`, used by
the uncaught string-parse `ValueError` of lines 190-193), but at both
precondition-violating inputs it returns `Except.ok` with an Aggregate: the
empty dict for an empty state set, and the zeroed dict for an inverted window
— it performs no precondition validation at all. -/
theorem c5_counterexample :
    Except.map Prod.fst (analyze_state_changes fetchW detW 1000 [] tzZero [7] []
        (.dt (.naive 0)) (.dt (.naive 86399999999))) = .ok []
    ∧ Except.map Prod.fst (analyze_state_changes fetchW detW 1000 [] tzZero [7] ["Active"]
        (.dt (.naive 86399999999)) (.dt (.naive 0))) = .ok [("Active", ⟨0, []⟩)] := by
  exact ⟨rfl, rfl⟩

/-- C5 amended: `analyze_state_changes` never raises for the claimed
precondition violations; with an empty `selectedStates` it returns the empty
Aggregate, and with a window whose end precedes its start it returns the
zeroed Aggregate (no membership test can succeed). -/
theorem c5_no_precondition_raise (fetch : Nat → Except String (List Update))
    (det : Nat → Option WIDetails) (now : Int) (cache0 : UpdCache) (tz : Int → Int)
    (ids : List Nat) (sel : List String) (d1 d2 : PyDateTime) :
    (Except.map Prod.fst (analyze_state_changes fetch det now cache0 tz ids []
        (.dt d1) (.dt d2)) = .ok [])
    ∧ (localizeToUtc tz d2 < localizeToUtc tz d1 →
        Except.map Prod.fst (analyze_state_changes fetch det now cache0 tz ids sel
          (.dt d1) (.dt d2)) = .ok (initAgg sel)) := by
  constructor
  · have hagg : (analyzeCached fetch det now cache0 ids []
        (localizeToUtc tz d1) (localizeToUtc tz d2)).1 = [] := by
      exact analyzeCached_recState_inv (fun st => st.agg = []) fetch det now []
        (localizeToUtc tz d1) (localizeToUtc tz d2)
        (fun st wid us hst => by
          simp only [processItemUpdates]
          exact foldl_preserve_mem (fun a => a.agg = [])
            (processUpdate [] (localizeToUtc tz d1) (localizeToUtc tz d2) wid) us
            (fun a b _ ha => processUpdate_agg_nil ha) st hst)
        ids ⟨initAgg [], []⟩ cache0 rfl
    show Except.ok (analyzeCached fetch det now cache0 ids []
      (localizeToUtc tz d1) (localizeToUtc tz d2)).1 = Except.ok []
    rw [hagg]
  · intro hlt
    have hagg : (analyzeCached fetch det now cache0 ids sel
        (localizeToUtc tz d1) (localizeToUtc tz d2)).1 = initAgg sel := by
      exact analyzeCached_recState_inv (fun st => st.agg = initAgg sel) fetch det now sel
        (localizeToUtc tz d1) (localizeToUtc tz d2)
        (fun st wid us hst => by
          simp only [processItemUpdates]
          rw [foldl_id _ (fun a b => processUpdate_of_end_lt_start hlt) us st]
          exact hst)
        ids ⟨initAgg sel, []⟩ cache0 rfl
    show Except.ok (analyzeCached fetch det now cache0 ids sel
      (localizeToUtc tz d1) (localizeToUtc tz d2)).1 = Except.ok (initAgg sel)
    rw [hagg]

/-- Witness for C5 (amended): a concrete inverted window returns the zeroed
Aggregate. -/
theorem c5_witness :
    Except.map Prod.fst (analyze_state_changes fetchW detW 1000 [] tzZero [7] ["Active"]
        (.dt (.naive 100)) (.dt (.naive 0))) = .ok (initAgg ["Active"]) :=
  (c5_no_precondition_raise fetchW detW 1000 [] tzZero [7] ["Active"]
    (.naive 100) (.naive 0)).2 (by decide)

/-- C7: a change record with a state change but no recorded
`Microsoft.VSTS.Common.StateChangeDate` new value, or whose timestamp string
fails to parse after cleaning, is skipped without raising: removing it from the
update list leaves the reconciliation of the surrounding records unchanged. -/
theorem c7_bad_date_skipped (sel : List String) (su eu : Int) (wid : Nat) (u : Update)
    (sc : FieldDelta) (ns : String) (_hsf : u.stateField = some sc)
    (_hnv : sc.newValue = some ns) (hskip : dateSkips u = true)
    (pre post : List Update) (st : RecState) :
    processItemUpdates sel su eu wid st (pre ++ u :: post)
      = processItemUpdates sel su eu wid st (pre ++ post) := by
  simp only [processItemUpdates]
  rw [List.foldl_append, List.foldl_append, List.foldl_cons,
    processUpdate_of_dateSkips hskip]

/-- Witness for C7: an unparseable timestamp record between two good records
changes nothing. -/
theorem c7_witness :
    processItemUpdates ["Active"] 0 2000000000000000 101 ⟨initAgg ["Active"], []⟩
        ([updGood] ++ updBadDate :: [updGood])
      = processItemUpdates ["Active"] 0 2000000000000000 101 ⟨initAgg ["Active"], []⟩
        ([updGood] ++ [updGood]) :=
  c7_bad_date_skipped ["Active"] 0 2000000000000000 101 updBadDate
    ⟨some "New", some "Active"⟩ "Active" rfl rfl (by decide) [updGood] [updGood]
    ⟨initAgg ["Active"], []⟩

/-- C8: `_get_cached_result` returns a cached value exactly when an entry
exists and `now - insertedAt < 3600`; with no entry, or with age `≥ 3600`
(in particular exactly 3600), it reports absent. -/
theorem c8_cache_freshness {α : Type} (cache : List (String × CachedVal α))
    (now : Int) (key : String) :
    (∀ v : α, get_cached_result cache cache_duration now key = some v ↔
      ∃ e, List.lookup key cache = some e ∧ e.result = v ∧ now - e.timestamp < cache_duration)
    ∧ (List.lookup key cache = none → get_cached_result cache cache_duration now key = none)
    ∧ (∀ e, List.lookup key cache = some e → cache_duration ≤ now - e.timestamp →
        get_cached_result cache cache_duration now key = none) := by
  refine ⟨?_, ?_, ?_⟩
  · intro v
    constructor
    · intro h
      cases hl : List.lookup key cache with
      | none => simp [get_cached_result, hl] at h
      | some c =>
        simp only [get_cached_result, hl] at h
        by_cases ht : now - c.timestamp < cache_duration
        · rw [if_pos ht] at h
          exact ⟨c, rfl, Option.some.inj h, ht⟩
        · rw [if_neg ht] at h
          simp at h
    · rintro ⟨e, hl, rfl, ht⟩
      simp [get_cached_result, hl, ht]
  · intro h
    simp [get_cached_result, h]
  · intro e hl ht
    simp [get_cached_result, hl, not_lt.mpr ht]

/-- Witness for C8: an entry aged exactly 3600 is absent; one second younger it
is served. -/
theorem c8_witness :
    get_cached_result [("projects", (⟨5, 1000⟩ : CachedVal Nat))] cache_duration 4600
        "projects" = none
    ∧ get_cached_result [("projects", (⟨5, 1000⟩ : CachedVal Nat))] cache_duration 4599
        "projects" = some 5 := by
  constructor
  · exact (c8_cache_freshness [("projects", ⟨5, 1000⟩)] 4600 "projects").2.2
      ⟨5, 1000⟩ (by decide) (by decide)
  · exact ((c8_cache_freshness [("projects", ⟨5, 1000⟩)] 4599 "projects").1 5).mpr
      ⟨⟨5, 1000⟩, by decide, rfl, by decide⟩

/-- C9: the normalized window is local midnight of the start date and local
23:59:59.999999 of the end date, each converted to UTC with the host zone's
offset (refinement against the spec-side normalizer), and a timezone-aware
input is converted — its UTC instant is preserved and independent of the host
zone — rather than re-localized. -/
theorem c9_window_normalization (tz tz2 : Int → Int) (ds de u : Int) :
    localizeToUtc tz (.naive (datetimeMinCombine ds)) = specStartUtc tz ds
    ∧ localizeToUtc tz (.naive (datetimeMaxCombine de)) = specEndUtc tz de
    ∧ localizeToUtc tz (.aware u) = u
    ∧ localizeToUtc tz (.aware u) = localizeToUtc tz2 (.aware u) := by
  have h1 : wallClockUs ds 0 0 0 0 = datetimeMinCombine ds := by
    unfold wallClockUs datetimeMinCombine
    ring
  have h2 : wallClockUs de 23 59 59 999999 = datetimeMaxCombine de := by
    unfold wallClockUs datetimeMaxCombine usPerDay
    omega
  refine ⟨?_, ?_, rfl, rfl⟩
  · show datetimeMinCombine ds - tz (datetimeMinCombine ds)
      = wallClockUs ds 0 0 0 0 - tz (wallClockUs ds 0 0 0 0)
    rw [h1]
  · show datetimeMaxCombine de - tz (datetimeMaxCombine de)
      = wallClockUs de 23 59 59 999999 - tz (wallClockUs de 23 59 59 999999)
    rw [h2]

end Analyzerado
